import Mathlib

/-!
Verification development for the Tesira Text Protocol client library.

The Rust sources are shallowly embedded as Lean definitions:

* `src/proto/parser.rs` — the nom parser combinators are modelled as pure
  functions of type `List Char → Option (α × List Char)` (a `none` result is a
  nom `Error`; the complete-input combinators used by the crate never produce
  `Incomplete` or `Failure`).  The recursive value grammar is embedded with an
  explicit fuel parameter; the top-level entry points instantiate the fuel with
  `input.length + 1`, which is always sufficient because every recursive call
  consumes at least one character of input.
* `src/proto.rs` — `Command`, its constructors and `IntoTTP` serialisation.
  Rust `String`/`&str` values are modelled as `List Char`; `u64` as `Nat`
  (the crate only ever serialises values far below `2^64`, so wrapping is not
  observable); `f64` as `ℚ` (every numeric literal exercised here is exactly
  representable, and the parser computes with exact integer arithmetic before
  one final division).
* `src/lib.rs` — the session loop.  The read side of the stream is modelled as
  the list of lines successive `read_line` calls return; an exhausted list is a
  `read_line` returning zero bytes.  The `VecDeque` pending buffer is a list
  whose head is the `push_front` end and whose last element is the `pop_back`
  end.
* `src/builder.rs` — `FilterSlope` and its checked constructor.
-/

namespace Tesira

/-! ## Parser combinator model (nom, as used in src/proto/parser.rs) -/

/-- A nom parser over string slices: on success, the parsed value plus the
remaining input. -/
abbrev P (α : Type) := List Char → Option (α × List Char)

/-- nom `tag`: match a literal token. -/
def tag (t : List Char) : P (List Char) := fun s =>
  if t.isPrefixOf s then some (t, s.drop t.length) else none

/-- nom `Parser::map`. -/
def pmap {α β : Type} (p : P α) (f : α → β) : P β := fun s =>
  match p s with
  | none => none
  | some (a, r) => some (f a, r)

/-- nom `pair`: run two parsers in sequence. -/
def pairP {α β : Type} (p : P α) (q : P β) : P (α × β) := fun s =>
  match p s with
  | none => none
  | some (a, r) =>
    match q r with
    | none => none
    | some (b, r2) => some ((a, b), r2)

/-- nom `preceded`. -/
def precededP {α β : Type} (p : P α) (q : P β) : P β :=
  pmap (pairP p q) Prod.snd

/-- nom `terminated`. -/
def terminatedP {α β : Type} (p : P α) (q : P β) : P α :=
  pmap (pairP p q) Prod.fst

/-- nom `delimited`. -/
def delimitedP {α β γ : Type} (p : P α) (q : P β) (r : P γ) : P β :=
  precededP p (terminatedP q r)

/-- nom `opt`: always succeeds, backtracking on failure. -/
def optP {α : Type} (p : P α) : P (Option α) := fun s =>
  match p s with
  | none => some (none, s)
  | some (a, r) => some (some a, r)

/-- nom `alt` for two alternatives (backtracks on `Error`). -/
def altP {α : Type} (p q : P α) : P α := fun s =>
  match p s with
  | none => q s
  | some x => some x

/-- nom `combinator::value`: discard the parse result, return `v`. -/
def valueP {α β : Type} (v : α) (p : P β) : P α := pmap p (fun _ => v)

/-- nom `take_while1`: longest nonempty prefix whose characters satisfy `f`. -/
def take_while1 (f : Char → Bool) : P (List Char) := fun s =>
  if (s.takeWhile f).isEmpty then none else some (s.takeWhile f, s.dropWhile f)

/-- nom `rest`: consume and return all remaining input. -/
def restP : P (List Char) := fun s => some (s, [])

/-- Characters accepted by nom `space1`: spaces and tabs. -/
def isSpaceTab (c : Char) : Bool := c = ' ' || c = '\t'

/-- nom `character::complete::space1`. -/
def space1 : P (List Char) := take_while1 isSpaceTab

/-- Split the input at the first occurrence of `t`: the part before it and the
part from it on.  `none` when `t` does not occur. -/
def splitUntil (t : List Char) : List Char → Option (List Char × List Char)
  | [] => if t.isPrefixOf ([] : List Char) then some ([], []) else none
  | c :: s =>
    if t.isPrefixOf (c :: s) then some ([], c :: s)
    else
      match splitUntil t s with
      | none => none
      | some (pre, post) => some (c :: pre, post)

/-- nom `take_until`: input up to the first occurrence of `t` (failing when `t`
is absent); the occurrence itself is left in the remainder. -/
def take_until (t : List Char) : P (List Char) := fun s => splitUntil t s

/-- nom `separated_list0`, tail part: zero or more `sep`-then-`elem` groups,
stopping (and backtracking over a partial `sep`) at the first failure.  The
fuel bounds the number of iterations; every iteration consumes at least one
character, so `input.length` fuel is always enough. -/
def sepTailF {α β : Type} (sep : P α) (elem : P β) : Nat → P (List β)
  | 0 => fun _ => none
  | f + 1 => fun s =>
    match pairP sep elem s with
    | none => some ([], s)
    | some ((_, b), r) =>
      match sepTailF sep elem f r with
      | none => none
      | some (bs, r2) => some (b :: bs, r2)

/-- nom `separated_list0` with fuel. -/
def sepList0F {α β : Type} (sep : P α) (elem : P β) (f : Nat) : P (List β) := fun s =>
  match elem s with
  | none => some ([], s)
  | some (b, r) =>
    match sepTailF sep elem f r with
    | none => none
    | some (bs, r2) => some (b :: bs, r2)

/-! ## Data model (src/proto.rs) -/

/-- A structured value from Tesira devices (`enum Value`).  Rust `f64` is
modelled as `ℚ`; the Rust `HashMap` built by `HashMap::from_iter` is modelled
as the association list of parsed entries in input order. -/
inductive Value : Type where
  | Number (q : ℚ)
  | Boolean (b : Bool)
  | String (s : List Char)
  | Map (entries : List (List Char × Value))
  | Array (vs : List Value)
  | Constant (s : List Char)

/-- An error produced by the device (`struct ErrResponse`). -/
structure ErrResponse : Type where
  message : List Char
deriving DecidableEq

/-- A positive response to a command (`enum OkResponse`). -/
inductive OkResponse : Type where
  | Ok
  | WithValue (v : Value)
  | WithList (l : List Value)

/-- A value update of a subscription (`struct PublishToken`). -/
structure PublishToken : Type where
  label : List Char
  value : Value

/-- A response from device to a command (`enum Response`). -/
inductive Response : Type where
  | Ok (r : OkResponse)
  | Err (e : ErrResponse)
  | PublishToken (t : PublishToken)

/-! ## Value and response parsers (src/proto/parser.rs) -/

/-- Numeric value of a decimal digit string, as Rust `str::parse::<i64>`
computes it (overflow is out of the modelled range). -/
def digitsToNat (l : List Char) : Nat :=
  l.foldl (fun acc c => acc * 10 + (c.toNat - ('0').toNat)) 0

/-- The value computation of `float_str` on the matched pieces — optional
sign, integer digits, optional fraction digits.  The fractional part is
trimmed of trailing zeros and is negated only when the already-signed integer
part is strictly negative — exactly as the Rust closure computes. -/
def floatVal (it : (Option (List Char) × List Char) × Option (List Char)) : ℚ :=
  let whole0 : Int := (digitsToNat it.1.2 : Int)
  let whole : Int := if it.1.1.isSome then -1 * whole0 else whole0
  let fractional : ℚ :=
    match it.2 with
    | none => 0
    | some ds =>
      let trimmedValue := (ds.reverse.dropWhile (fun c => c = '0')).reverse
      if trimmedValue.isEmpty then 0
      else
        let v0 : Int := (digitsToNat trimmedValue : Int)
        let v : Int := if whole < 0 then -1 * v0 else v0
        (v : ℚ) / ((10 : ℚ) ^ trimmedValue.length)
  (whole : ℚ) + fractional

/-- Embedding of `float_str`: optional minus sign, integer digits, optional
fractional digits, mapped through `floatVal`. -/
def float_str : P ℚ :=
  pmap
    (pairP (pairP (optP (tag ['-'])) (take_while1 Char.isDigit))
      (optP (precededP (tag ['.']) (take_while1 Char.isDigit))))
    floatVal

/-- Embedding of `delimited_str`: a double-quoted string (its content cannot
contain a double quote). -/
def delimited_str : P (List Char) :=
  delimitedP (tag ['"']) (take_until ['"']) (tag ['"'])

/-- Characters of a bare constant token: Rust `char::is_alphanumeric` or an
underscore (the claims only exercise ASCII, where `Char.isAlphanum`
coincides). -/
def constChar (c : Char) : Bool := c.isAlphanum || c = '_'

/-- Literal token of the boolean `true` branch. -/
def trueTok : List Char := ("true").toList

/-- Literal token of the boolean `false` branch. -/
def falseTok : List Char := ("false").toList

/-- Embedding of `ttp_value` with explicit fuel: the `alt` over map, array,
string, `true`, `false`, number and constant, in the source order. -/
def ttp_valueF : Nat → P Value
  | 0 => fun _ => none
  | f + 1 =>
    altP
      (pmap
        (delimitedP (tag ['{'])
          (sepList0F space1
            (pairP (delimitedP (tag ['"']) (take_while1 (fun c => c ≠ '"')) (tag ['"', ':']))
              (ttp_valueF f))
            f)
          (tag ['}']))
        Value.Map)
      (altP
        (pmap
          (delimitedP (tag ['['])
            (sepList0F space1 (ttp_valueF f) f)
            (tag [']']))
          Value.Array)
        (altP (pmap delimited_str Value.String)
          (altP (valueP (Value.Boolean true) (tag trueTok))
            (altP (valueP (Value.Boolean false) (tag falseTok))
              (altP (pmap float_str Value.Number)
                (pmap (take_while1 constChar) Value.Constant))))))

/-- Embedding of `ttp_value`: the fuel is instantiated with a bound that is
always sufficient. -/
def ttp_value : P Value := fun s => ttp_valueF (s.length + 1) s

/-- Embedding of `ttp_list_of_values`. -/
def ttp_list_of_values : P (List Value) := fun s =>
  delimitedP (tag ['['])
    (sepList0F space1 (ttp_valueF (s.length + 1)) (s.length + 1))
    (tag [']']) s

/-- Embedding of `field`: a quoted field name followed by a colon. -/
def field (name : List Char) : P (List Char) :=
  terminatedP (delimitedP (tag ['"']) (tag name) (tag ['"'])) (tag [':'])

/-- Literal token opening every positive reply. -/
def okTok : List Char := ("+OK").toList

/-- Literal token opening every error reply. -/
def errTok : List Char := ("-ERR").toList

/-- Literal token opening every publish token line. -/
def publishTok : List Char := ("! ").toList ++ ['"'] ++ ("publishToken").toList ++ ['"', ':']

/-- Embedding of `ok_response`: `+OK`, optionally followed by a `"value":` or
`"list":` payload; a missing or unparsable payload falls back to the bare
`OkResponse::Ok`. -/
def ok_response : P OkResponse := fun s =>
  match
    precededP (tag okTok)
      (optP
        (altP
          (pmap (precededP (precededP space1 (field (("value").toList))) ttp_value)
            OkResponse.WithValue)
          (pmap (precededP (precededP space1 (field (("list").toList))) ttp_list_of_values)
            OkResponse.WithList))) s
  with
  | none => none
  | some (extra, rem) => some (extra.getD OkResponse.Ok, rem)

/-- Embedding of `err_response`: `-ERR`, optionally followed by whitespace and
a message running to the first newline or the end of input. -/
def err_response : P ErrResponse := fun s =>
  match
    precededP (tag errTok)
      (optP (precededP space1 (altP (take_until ['\n']) restP))) s
  with
  | none => none
  | some (message, rem) => some (⟨message.getD []⟩, rem)

/-- Embedding of `publish_token_response`. -/
def publish_token_response : P PublishToken := fun s =>
  match
    precededP (tag publishTok)
      (pairP delimited_str
        (precededP space1 (precededP (field (("value").toList)) ttp_value))) s
  with
  | none => none
  | some ((label, v), rem) => some (⟨label, v⟩, rem)

/-- Embedding of `parse_response`: the `alt` over the three framings. -/
def parse_response : P Response :=
  altP (pmap ok_response Response.Ok)
    (altP (pmap err_response Response.Err)
      (pmap publish_token_response Response.PublishToken))

/-- Embedding of `Response::parse_ttp`: parse and keep the response, dropping
the unconsumed remainder (`none` is the wrapped nom parse error). -/
def parse_ttp (s : List Char) : Option Response :=
  match parse_response s with
  | none => none
  | some (r, _) => some r

/-! ## Command record and encoder (src/proto.rs) -/

/-- The `"get"` command string. -/
def COMMAND_GET : List Char := ("get").toList

/-- The `"set"` command string. -/
def COMMAND_SET : List Char := ("set").toList

/-- The `"subscribe"` command string. -/
def COMMAND_SUBSCRIBE : List Char := ("subscribe").toList

/-- A client command (`struct Command`).  `IndexValue` (`u64`) is modelled as
`Nat`; each entry of `values` is an already-encoded TTP token.  The source
field named like the Lean keyword for attributes is called `attr` here. -/
structure Command : Type where
  instance_tag : List Char
  command : List Char
  attr : List Char
  indexes : List Nat
  values : List (List Char)

/-- Embedding of `impl IntoTTP for bool`. -/
def Bool.into_ttp (b : Bool) : List Char :=
  match b with
  | true => ("true").toList
  | false => ("false").toList

/-- Decimal rendering of a `u64`, as Rust `ToString` produces it. -/
def natToTTP (n : Nat) : List Char := Nat.toDigits 10 n

/-- Embedding of `Command::new_get` (the value, generic over `IntoTTP` in Rust, is received
here already encoded). -/
def Command.new_get (instance_tag attr : List Char) (indexes : List Nat) : Command :=
  ⟨instance_tag, COMMAND_GET, attr, indexes, []⟩

/-- Embedding of `Command::new_set`: a single already-encoded value token. -/
def Command.new_set (instance_tag attr : List Char) (indexes : List Nat)
    (value : List Char) : Command :=
  ⟨instance_tag, COMMAND_SET, attr, indexes, [value]⟩

/-- Embedding of `Command::new_subscribe`: the identifier is the single value token. -/
def Command.new_subscribe (instance_tag attr : List Char) (indexes : List Nat)
    (identifier : List Char) : Command :=
  ⟨instance_tag, COMMAND_SUBSCRIBE, attr, indexes, [identifier]⟩

/-- Rust `Vec::join(" ")`. -/
def joinSpace : List (List Char) → List Char
  | [] => []
  | [x] => x
  | x :: y :: xs => x ++ ' ' :: joinSpace (y :: xs)

/-- Embedding of `impl IntoTTP for Command`: base `"{tag} {command} {attribute}"`,
then a space and the space-joined indexes when nonempty, then a space and the
space-joined value tokens when nonempty. -/
def Command.into_ttp (c : Command) : List Char :=
  let base := c.instance_tag ++ ' ' :: c.command ++ ' ' :: c.attr
  let withIdx :=
    if c.indexes.isEmpty then base
    else base ++ ' ' :: joinSpace (c.indexes.map natToTTP)
  if c.values.isEmpty then withIdx
  else withIdx ++ ' ' :: joinSpace c.values

/-- The line `send_command` writes to the stream: `format!("{}\n", ttp)`. -/
def sendLine (c : Command) : List Char := c.into_ttp ++ ['\n']

/-! ## Date serialisation (src/proto.rs, `impl IntoTTP for NaiveDateTime`) -/

/-- A wall-clock date-time, carrying the chrono accessors the formatter uses. -/
structure NaiveDateTime : Type where
  hour : Nat
  minute : Nat
  second : Nat
  day : Nat
  month : Nat
  year : Nat

/-- Chrono `%H`/`%M`/`%S`/`%d`: zero-padded to two digits. -/
def pad2 (n : Nat) : List Char :=
  if n < 10 then '0' :: Nat.toDigits 10 n else Nat.toDigits 10 n

/-- Chrono `%Y`: zero-padded to four digits. -/
def pad4 (n : Nat) : List Char :=
  List.replicate (4 - (Nat.toDigits 10 n).length) '0' ++ Nat.toDigits 10 n

/-- Embedding of `impl IntoTTP for NaiveDateTime`:
`format!("\"{}:{}:{}\"", %H:%M:%S, month(), %d:%Y)`; `Datelike::month` is
displayed unpadded. -/
def NaiveDateTime.into_ttp (dt : NaiveDateTime) : List Char :=
  '"' :: (pad2 dt.hour ++ ':' :: pad2 dt.minute ++ ':' :: pad2 dt.second)
    ++ ':' :: natToTTP dt.month
    ++ ':' :: (pad2 dt.day ++ ':' :: pad4 dt.year)
    ++ ['"']

/-! ## Filter slope (src/builder.rs) -/

/-- The supported filter slopes (`VALID_SLOPES`). -/
def VALID_SLOPES : List Nat := [6, 12, 18, 24, 30, 36, 42, 48]

/-- Slope of filter (`struct FilterSlope(u64)`). -/
structure FilterSlope : Type where
  val : Nat
deriving DecidableEq

/-- Provided slope value is invalid (`struct InvalidSlopeError`). -/
inductive InvalidSlopeError : Type where
  | mk
deriving DecidableEq

/-- Embedding of `FilterSlope::new`: reject any slope outside `VALID_SLOPES`. -/
def FilterSlope.new (slope : Nat) : Except InvalidSlopeError FilterSlope :=
  if !(VALID_SLOPES.contains slope) then Except.error InvalidSlopeError.mk
  else Except.ok ⟨slope⟩

/-- Embedding of `impl IntoTTP for FilterSlope`: serialise the inner `u64`. -/
def FilterSlope.into_ttp (s : FilterSlope) : List Char := natToTTP s.val

/-! ## Session model (src/lib.rs) -/

/-- Session-level errors (`enum Error`), restricted to the variants the
modelled control flow can produce (`IO` and `Ssh` concern the unmodelled
transport). -/
inductive SessionError : Type where
  | OperationFailed (e : ErrResponse)
  | ParsingFailed
  | UnexpectedResponse
  | UnexpectedEnd

/-- Rust `str::trim` on the ASCII protocol text. -/
def trimChars (l : List Char) : List Char :=
  ((l.dropWhile Char.isWhitespace).reverse.dropWhile Char.isWhitespace).reverse

/-- The classification test of `recv_response`: the trimmed line is nonempty
and starts with `-`, `+` or `!`. -/
def isResponseStart (l : List Char) : Bool :=
  match trimChars l with
  | [] => false
  | c :: _ => c = '-' || c = '+' || c = '!'

/-- Embedding of `recv_response`: read lines, skip blank and echo lines, parse
the first line that classifies as a response; an exhausted stream is
`read_line` returning zero bytes and yields `UnexpectedEnd`. -/
def recv_response : List (List Char) → Except SessionError (Response × List (List Char))
  | [] => Except.error SessionError.UnexpectedEnd
  | l :: rest =>
    if isResponseStart l then
      match parse_ttp l with
      | none => Except.error SessionError.ParsingFailed
      | some r => Except.ok (r, rest)
    else recv_response rest

/-- The reply loop of `send_command`, with the two nested Rust loops fused
into one structural recursion over the stream lines (`sendLoop_eq_recv`
recovers the original loop structure): publish tokens are pushed to the front
of the pending buffer, an OK reply returns, an ERR reply fails. -/
def sendLoop : List (List Char) → List PublishToken →
    Except SessionError (OkResponse × List (List Char) × List PublishToken)
  | [], _ => Except.error SessionError.UnexpectedEnd
  | l :: rest, pending =>
    if isResponseStart l then
      match parse_ttp l with
      | none => Except.error SessionError.ParsingFailed
      | some (Response.PublishToken t) => sendLoop rest (t :: pending)
      | some (Response.Ok r) => Except.ok (r, rest, pending)
      | some (Response.Err e) => Except.error (SessionError.OperationFailed e)
    else sendLoop rest pending

/-- Embedding of `send_command`: write one encoded line, then run the reply
loop.  The result pairs the written bytes with the loop outcome. -/
def send_command (c : Command) (lines : List (List Char)) (pending : List PublishToken) :
    List Char × Except SessionError (OkResponse × List (List Char) × List PublishToken) :=
  (sendLine c, sendLoop lines pending)

/-- Embedding of `recv_token`: pop the back of the pending buffer if nonempty,
otherwise read a response; a non-token response is `UnexpectedResponse`. -/
def recv_token (lines : List (List Char)) (pending : List PublishToken) :
    Except SessionError (PublishToken × List (List Char) × List PublishToken) :=
  match pending.getLast? with
  | some t => Except.ok (t, lines, pending.dropLast)
  | none =>
    match recv_response lines with
    | Except.error e => Except.error e
    | Except.ok (Response.PublishToken t, rest) => Except.ok (t, rest, pending)
    | Except.ok (Response.Ok _, _) => Except.error SessionError.UnexpectedResponse
    | Except.ok (Response.Err _, _) => Except.error SessionError.UnexpectedResponse

/-- Iterate `recv_token` `n` times, collecting the returned tokens in order. -/
def recvTokens : Nat → List (List Char) → List PublishToken →
    Except SessionError (List PublishToken × List (List Char) × List PublishToken)
  | 0, lines, pending => Except.ok ([], lines, pending)
  | n + 1, lines, pending =>
    match recv_token lines pending with
    | Except.error e => Except.error e
    | Except.ok (t, lines2, pending2) =>
      match recvTokens n lines2 pending2 with
      | Except.error e => Except.error e
      | Except.ok (ts, lines3, pending3) => Except.ok (t :: ts, lines3, pending3)

/-- The publish tokens a reply loop run over `lines` parses before its first
terminal (OK or ERR) outcome, oldest first. -/
def tokensAwaiting : List (List Char) → List PublishToken
  | [] => []
  | l :: rest =>
    if isResponseStart l then
      match parse_ttp l with
      | some (Response.PublishToken t) => t :: tokensAwaiting rest
      | _ => []
    else tokensAwaiting rest

/-- Boolean test for the publish-token framing of a parsed response. -/
def Response.isPublish : Response → Bool
  | Response.PublishToken _ => true
  | _ => false

/-! ## Banner handshake (src/lib.rs, `new_from_stream`) -/

/-- One `read_line` outcome during the handshake: a delivered line or an I/O
error. -/
inductive ReadEvent : Type where
  | line (l : List Char)
  | ioErr

/-- Embedding of the `new_from_stream` banner loop as a step-indexed run:
`none` means the loop is still running after `fuel` reads.  A read past the
end of the event list models `read_line` returning zero bytes with the buffer
left empty, which sends the loop straight into the next iteration. -/
def bannerLoopF : Nat → List ReadEvent → Option (Except Unit (List ReadEvent))
  | 0, _ => none
  | f + 1, [] => bannerLoopF f []
  | _ + 1, ReadEvent.ioErr :: _ => some (Except.error ())
  | f + 1, ReadEvent.line l :: rest =>
    match (("Welcome").toList).isPrefixOf l with
    | true => some (Except.ok rest)
    | false => bannerLoopF f rest

/-- A read event on which the banner loop does not stop: a line that does not
begin with `Welcome`. -/
def ReadEvent.isPlain : ReadEvent → Bool
  | ReadEvent.line l => !((("Welcome").toList).isPrefixOf l)
  | ReadEvent.ioErr => false

/-- Concrete run for C1: an echo line, two publish tokens, then `+OK`; the
buffer ends as the two tokens in push-front order and two `recv_token` calls
return them in arrival order without reading lines. -/
def wEcho : List Char := ("LogicMeter1 subscribe state 1 Subscription0\n").toList

/-- First publish token line of the concrete C1 run. -/
def wTokLine1 : List Char :=
  ("! \"publishToken\":\"Subscription0\" \"value\":false\n").toList

/-- Second publish token line of the concrete C1 run. -/
def wTokLine2 : List Char :=
  ("! \"publishToken\":\"Subscription0\" \"value\":true\n").toList

/-- Bare OK reply line of the concrete C1 run. -/
def wOkLine : List Char := ("+OK\n").toList

/-- The line stream of the concrete C1 run. -/
def wLines : List (List Char) := [wEcho, wTokLine1, wTokLine2, wOkLine]

/-- First token of the concrete C1 run, as parsed. -/
def wTok1 : PublishToken := ⟨("Subscription0").toList, Value.Boolean false⟩

/-- Second token of the concrete C1 run, as parsed. -/
def wTok2 : PublishToken := ⟨("Subscription0").toList, Value.Boolean true⟩

/-! ## Session lemmas -/

/-- Fidelity of the fused reply loop: `sendLoop` is exactly the Rust
`send_command` loop body iterating `recv_response`. -/
theorem sendLoop_eq_recv (lines : List (List Char)) (pending : List PublishToken) :
    sendLoop lines pending =
      match recv_response lines with
      | Except.error e => Except.error e
      | Except.ok (Response.PublishToken t, rest) => sendLoop rest (t :: pending)
      | Except.ok (Response.Ok r, rest) => Except.ok (r, rest, pending)
      | Except.ok (Response.Err e, rest) => Except.error (SessionError.OperationFailed e) := by
  induction lines generalizing pending with
  | nil => simp [sendLoop, recv_response]
  | cons l rest ih =>
    by_cases h : isResponseStart l
    · simp only [sendLoop, recv_response, h, if_true]
      cases hp : parse_ttp l with
      | none => rfl
      | some r => cases r <;> rfl
    · simp only [sendLoop, recv_response, h, if_false]
      exact ih pending

/-- Every publish token met while awaiting the reply is pushed to the front of
the pending buffer, so a successful loop run leaves the buffer extended by the
reversal of the tokens in arrival order. -/
theorem sendLoop_pending (lines : List (List Char)) :
    ∀ pending r rest pending',
      sendLoop lines pending = Except.ok (r, rest, pending') →
      pending' = (tokensAwaiting lines).reverse ++ pending := by
  induction lines with
  | nil => intro pending r rest pending' h; exact absurd h (by simp [sendLoop])
  | cons l tl ih =>
    intro pending r rest pending' h
    by_cases hl : isResponseStart l
    · simp only [sendLoop, hl, if_true] at h
      cases hp : parse_ttp l with
      | none => rw [hp] at h; exact absurd h (by simp)
      | some resp =>
        rw [hp] at h
        cases resp with
        | Ok r2 =>
          simp only [Except.ok.injEq, Prod.mk.injEq] at h
          simp [tokensAwaiting, hl, hp, ← h.2.2]
        | Err e => exact absurd h (by simp)
        | PublishToken t =>
          have := ih (t :: pending) r rest pending' h
          simp [tokensAwaiting, hl, hp, this]
    · simp only [sendLoop, hl, if_false] at h
      have := ih pending r rest pending' h
      simp [tokensAwaiting, hl, this]

/-- Draining: with `pending.length` calls, `recv_token` returns exactly the
buffered tokens, oldest first, popping the back each time and never touching
the line stream. -/
theorem recvTokens_drain (pending : List PublishToken) (lines : List (List Char)) :
    recvTokens pending.length lines pending = Except.ok (pending.reverse, lines, []) := by
  induction pending using List.reverseRecOn generalizing lines with
  | nil => simp [recvTokens]
  | append_singleton ys t ih =>
    have hlen : (ys ++ [t]).length = ys.length + 1 := by simp
    rw [hlen]
    simp only [recvTokens, recv_token, List.getLast?_concat, List.dropLast_concat]
    rw [ih lines]
    simp

/-- C1.  While `send_command` awaits its synchronous reply, every publish
token parsed from a read line is pushed onto the pending buffer and none is
dropped: a successful run over `lines` leaves the buffer holding exactly the
reversal (push-front order) of the tokens in line-arrival order, and the next
`pending.length` calls to `recv_token` drain that buffer, returning those
tokens oldest-first without reading any further line. -/
theorem c1_publish_tokens_buffered_fifo (c : Command) (lines : List (List Char))
    (r : OkResponse) (rest : List (List Char)) (pending' : List PublishToken)
    (h : (send_command c lines []).2 = Except.ok (r, rest, pending')) :
    pending' = (tokensAwaiting lines).reverse ∧
      recvTokens pending'.length rest pending' =
        Except.ok (tokensAwaiting lines, rest, []) := by
  have hp : pending' = (tokensAwaiting lines).reverse ++ [] :=
    sendLoop_pending lines [] r rest pending' h
  rw [List.append_nil] at hp
  refine ⟨hp, ?_⟩
  have := recvTokens_drain pending' rest
  rw [this, hp, List.reverse_reverse]

/-- Witness for C1 at the concrete run. -/
theorem c1_publish_tokens_buffered_fifo_witness :
    [wTok2, wTok1] = (tokensAwaiting wLines).reverse ∧
      recvTokens 2 [] [wTok2, wTok1] = Except.ok (tokensAwaiting wLines, [], []) :=
  c1_publish_tokens_buffered_fifo
    (Command.new_subscribe (("LogicMeter1").toList) (("state").toList) [1]
      (("Subscription0").toList))
    wLines OkResponse.Ok [] [wTok2, wTok1] rfl

/-- C5.  Whenever the reply loop exhausts the stream — every line read while
awaiting classifies as a skipped blank/echo line or as a publish token, so no
terminal reply arrives before `read_line` returns zero bytes — `send_command`
returns `UnexpectedEnd`: not a success, not a different error, and (being a
total function of the finite stream) not a hang. -/
theorem c5_unexpected_end_on_eof (c : Command) (lines : List (List Char))
    (pending : List PublishToken)
    (h : ∀ l ∈ lines, isResponseStart l = true → (parse_ttp l).any Response.isPublish = true) :
    (send_command c lines pending).2 = Except.error SessionError.UnexpectedEnd := by
  show sendLoop lines pending = Except.error SessionError.UnexpectedEnd
  induction lines generalizing pending with
  | nil => rfl
  | cons l rest ih =>
    by_cases hl : isResponseStart l
    · have hpub := h l (by simp) hl
      simp only [sendLoop, hl, if_true]
      cases hp : parse_ttp l with
      | none => rw [hp] at hpub; exact absurd hpub (by simp)
      | some resp =>
        rw [hp] at hpub
        cases resp with
        | Ok r => exact absurd hpub (by simp [Response.isPublish])
        | Err e => exact absurd hpub (by simp [Response.isPublish])
        | PublishToken t =>
          exact ih (t :: pending) (fun l2 hmem => h l2 (by simp [hmem]))
    · simp only [sendLoop, hl, if_false]
      exact ih pending (fun l2 hmem => h l2 (by simp [hmem]))

/-- Witness for C5: an echo line followed by a publish token, then end of
stream, makes `send_command` fail with `UnexpectedEnd`. -/
theorem c5_unexpected_end_on_eof_witness :
    (send_command
        (Command.new_subscribe (("LogicMeter1").toList) (("state").toList) [1]
          (("Subscription0").toList))
        [wEcho, wTokLine1] []).2 = Except.error SessionError.UnexpectedEnd :=
  c5_unexpected_end_on_eof _ [wEcho, wTokLine1] [] (by decide)

/-! ## Encoder lemmas -/

/-- Unfolding of `joinSpace` on a cons with nonempty tail. -/
theorem joinSpace_cons_ne (x : List Char) (xs : List (List Char)) (h : xs ≠ []) :
    joinSpace (x :: xs) = x ++ ' ' :: joinSpace xs := by
  cases xs with
  | nil => exact absurd rfl h
  | cons y ys => rfl

/-- The join `joinSpace` splits over an append of two nonempty lists with a single
space at the seam. -/
theorem joinSpace_append (xs ys : List (List Char)) (hx : xs ≠ []) (hy : ys ≠ []) :
    joinSpace (xs ++ ys) = joinSpace xs ++ ' ' :: joinSpace ys := by
  induction xs with
  | nil => exact absurd rfl hx
  | cons x xs ih =>
    cases xs with
    | nil => simpa using joinSpace_cons_ne x ys hy
    | cons x2 xs2 =>
      rw [List.cons_append, joinSpace_cons_ne x ((x2 :: xs2) ++ ys) (by simp),
        joinSpace_cons_ne x (x2 :: xs2) (by simp), ih (by simp)]
      simp

/-- C2.  The encoded request line is the space-join of the fields — instance
tag, verb, attribute, then each index, then each value token — with exactly
one ASCII space between consecutive fields and nothing after the last field,
and `send_command` writes that encoding followed by exactly one newline; in
particular the two canonical commands encode as the claim states. -/
theorem c2_command_encoding :
    (∀ c : Command,
        c.into_ttp =
          joinSpace ([c.instance_tag, c.command, c.attr]
            ++ c.indexes.map natToTTP ++ c.values)) ∧
      (∀ (c : Command) (lines : List (List Char)) (pending : List PublishToken),
        (send_command c lines pending).1 = c.into_ttp ++ ['\n']) ∧
      Command.into_ttp
          (Command.new_get (("SESSION").toList) (("aliases").toList) [])
        = ("SESSION get aliases").toList ∧
      Command.into_ttp
          (Command.new_set (("level3").toList) (("mute").toList) [3]
            (Bool.into_ttp true))
        = ("level3 set mute 3 true").toList := by
  refine ⟨?_, fun c lines pending => rfl, by decide, by decide⟩
  intro c
  by_cases hi : c.indexes.isEmpty <;> by_cases hv : c.values.isEmpty
  · rw [List.isEmpty_iff] at hi hv
    simp [Command.into_ttp, hi, hv, joinSpace]
  · rw [List.isEmpty_iff] at hi
    have hv2 : c.values ≠ [] := by
      intro h2
      rw [h2] at hv
      exact hv rfl
    simp only [Command.into_ttp, hi, hv, List.map_nil, List.isEmpty_nil, if_true, if_false,
      Bool.false_eq_true, List.append_nil]
    rw [joinSpace_append [c.instance_tag, c.command, c.attr] c.values (by simp) hv2]
    simp [joinSpace]
  · rw [List.isEmpty_iff] at hv
    have hi2 : c.indexes.map natToTTP ≠ [] := by
      simp only [ne_eq, List.map_eq_nil_iff]
      intro h2
      rw [h2] at hi
      exact hi rfl
    simp only [Command.into_ttp, hi, hv, List.isEmpty_nil, if_true, if_false,
      Bool.false_eq_true, List.append_nil]
    rw [joinSpace_append [c.instance_tag, c.command, c.attr] (c.indexes.map natToTTP)
      (by simp) hi2]
    simp [joinSpace]
  · have hv2 : c.values ≠ [] := by
      intro h2
      rw [h2] at hv
      exact hv rfl
    have hi2 : c.indexes.map natToTTP ≠ [] := by
      simp only [ne_eq, List.map_eq_nil_iff]
      intro h2
      rw [h2] at hi
      exact hi rfl
    simp only [Command.into_ttp, hi, hv, if_false, Bool.false_eq_true]
    rw [joinSpace_append ([c.instance_tag, c.command, c.attr] ++ c.indexes.map natToTTP)
      c.values (by simp) hv2,
      joinSpace_append [c.instance_tag, c.command, c.attr] (c.indexes.map natToTTP)
      (by simp) hi2]
    simp [joinSpace]

/-- C7.  A date-time encodes as the quoted token `HH:MM:SS:M:DD:YYYY`: the
first conjunct fixes the canonical example (month 6 unpadded, day 01 padded),
the second is the general shape with `pad2` on hours, minutes, seconds and
day but the bare decimal rendering on the month, and the remaining conjuncts
verify that `pad2` always yields two digits while months 1–9 render as a
single unpadded digit. -/
theorem c7_datetime_encoding :
    NaiveDateTime.into_ttp ⟨12, 56, 43, 1, 6, 2025⟩
        = ("\"12:56:43:6:01:2025\"").toList ∧
      (∀ dt : NaiveDateTime,
        dt.into_ttp =
          '"' :: (pad2 dt.hour ++ ':' :: pad2 dt.minute ++ ':' :: pad2 dt.second)
            ++ ':' :: natToTTP dt.month
            ++ ':' :: (pad2 dt.day ++ ':' :: pad4 dt.year)
            ++ ['"']) ∧
      ((List.range 100).all fun n => (pad2 n).length == 2) = true ∧
      ((List.range 9).all fun m => (natToTTP (m + 1)).length == 1) = true := by
  exact ⟨by decide, fun dt => rfl, by decide, by decide⟩

/-- C8.  `FilterSlope::new` accepts exactly the slopes in
`{6, 12, 18, 24, 30, 36, 42, 48}`, failing with `InvalidSlopeError` on every
other `u64`; `new 7` fails, `new 12` succeeds, and any slope that passed
construction serialises to the decimal rendering of one of the valid values,
so an invalid slope never reaches the wire. -/
theorem c8_filter_slope_validation :
    (∀ n : Nat,
        if n ∈ VALID_SLOPES then FilterSlope.new n = Except.ok ⟨n⟩
        else FilterSlope.new n = Except.error InvalidSlopeError.mk) ∧
      FilterSlope.new 7 = Except.error InvalidSlopeError.mk ∧
      FilterSlope.new 12 = Except.ok ⟨12⟩ ∧
      (∀ (n : Nat) (s : FilterSlope), FilterSlope.new n = Except.ok s →
        s.into_ttp ∈ VALID_SLOPES.map natToTTP) := by
  refine ⟨?_, by rfl, by rfl, ?_⟩
  · intro n
    by_cases h : n ∈ VALID_SLOPES
    · have hc : VALID_SLOPES.contains n = true := List.elem_eq_true_of_mem h
      simp [FilterSlope.new, h, hc]
    · have hc : VALID_SLOPES.contains n = false := by simpa using h
      simp [FilterSlope.new, h, hc]
  · intro n s h
    by_cases hm : n ∈ VALID_SLOPES
    · have hc : VALID_SLOPES.contains n = true := List.elem_eq_true_of_mem hm
      simp only [FilterSlope.new, hc, Bool.not_true, Bool.false_eq_true, if_false,
        Except.ok.injEq] at h
      rw [← h]
      fin_cases hm <;> decide
    · have hc : VALID_SLOPES.contains n = false := by simpa using hm
      simp [FilterSlope.new, hc, hm] at h

/-- Witness for C8 at slope 12: construction succeeds and the serialised
token is the rendering of a valid slope. -/
theorem c8_filter_slope_validation_witness :
    FilterSlope.new 12 = Except.ok ⟨12⟩ ∧
      FilterSlope.into_ttp ⟨12⟩ ∈ VALID_SLOPES.map natToTTP :=
  ⟨c8_filter_slope_validation.2.2.1,
    c8_filter_slope_validation.2.2.2 12 ⟨12⟩ c8_filter_slope_validation.2.2.1⟩

/-! ## Banner handshake lemmas -/

/-- One step of the banner loop over a non-terminating read event just burns
one unit of fuel. -/
theorem bannerLoopF_plain_step (f : Nat) (e : ReadEvent) (he : e.isPlain = true)
    (evs : List ReadEvent) : bannerLoopF (f + 1) (e :: evs) = bannerLoopF f evs := by
  cases e with
  | ioErr => simp [ReadEvent.isPlain] at he
  | line l =>
    simp only [ReadEvent.isPlain, Bool.not_eq_true'] at he
    simp only [bannerLoopF, he]

/-- C10.  The banner loop of `new_from_stream` (1) returns successfully
exactly after consuming a line that begins with `Welcome`, discarding every
earlier non-`Welcome` line; (2) returns early only when `read_line` reports
an I/O error; and (3) on a stream that ends before any `Welcome` line it
never returns at all — `read_line` keeps reporting zero bytes into the empty
buffer and the loop runs forever (no fuel makes it stop). -/
theorem c10_banner_handshake :
    (∀ (f : Nat) (pre : List ReadEvent) (l : List Char) (rest : List ReadEvent),
        (∀ e ∈ pre, e.isPlain = true) → (("Welcome").toList).isPrefixOf l = true →
        bannerLoopF (pre.length + f + 1) (pre ++ ReadEvent.line l :: rest)
          = some (Except.ok rest)) ∧
      (∀ (f : Nat) (pre : List ReadEvent) (rest : List ReadEvent),
        (∀ e ∈ pre, e.isPlain = true) →
        bannerLoopF (pre.length + f + 1) (pre ++ ReadEvent.ioErr :: rest)
          = some (Except.error ())) ∧
      (∀ (f : Nat) (evs : List ReadEvent),
        (∀ e ∈ evs, e.isPlain = true) → bannerLoopF f evs = none) := by
  refine ⟨?_, ?_, ?_⟩
  · intro f pre l rest hpre hl
    induction pre with
    | nil =>
      rw [show ([] : List ReadEvent).length + f + 1 = f + 1 by simp]
      simp only [List.nil_append, bannerLoopF, hl]
    | cons e pre ih =>
      have he := hpre e (by simp)
      rw [show (e :: pre).length + f + 1 = (pre.length + f + 1) + 1 by simp only [List.length_cons]; omega,
        List.cons_append, bannerLoopF_plain_step (pre.length + f + 1) e he]
      exact ih (fun e2 he2 => hpre e2 (by simp [he2]))
  · intro f pre rest hpre
    induction pre with
    | nil =>
      rw [show ([] : List ReadEvent).length + f + 1 = f + 1 by simp]
      rfl
    | cons e pre ih =>
      have he := hpre e (by simp)
      rw [show (e :: pre).length + f + 1 = (pre.length + f + 1) + 1 by simp only [List.length_cons]; omega,
        List.cons_append, bannerLoopF_plain_step (pre.length + f + 1) e he]
      exact ih (fun e2 he2 => hpre e2 (by simp [he2]))
  · intro f
    induction f with
    | zero => intro evs _; rfl
    | succ f ih =>
      intro evs hevs
      cases evs with
      | nil => exact ih [] (by simp)
      | cons e rest =>
        have he := hevs e (by simp)
        rw [bannerLoopF_plain_step f e he]
        exact ih rest (fun e2 he2 => hevs e2 (by simp [he2]))

/-- Witness for C10: two banner lines then the welcome line succeed with the
rest of the stream; a lone non-welcome line followed by end of stream never
returns within any number of steps (here 5). -/
theorem c10_banner_handshake_witness :
    bannerLoopF 3
        [ReadEvent.line (("banner\n").toList), ReadEvent.line (("\n").toList),
          ReadEvent.line (("Welcome to the Tesira Text Protocol Server...\n").toList)]
        = some (Except.ok []) ∧
      bannerLoopF 5 [ReadEvent.line (("noise\n").toList)] = none := by
  constructor
  · exact c10_banner_handshake.1 0
      [ReadEvent.line (("banner\n").toList), ReadEvent.line (("\n").toList)]
      (("Welcome to the Tesira Text Protocol Server...\n").toList) [] (by decide) (by decide)
  · exact c10_banner_handshake.2.2 5 [ReadEvent.line (("noise\n").toList)] (by decide)

/-! ## Combinator lemmas -/

/-- Mapping over a failed parse fails. -/
theorem pmap_none {α β : Type} (p : P α) (f : α → β) (s : List Char) (h : p s = none) :
    pmap p f s = none := by simp [pmap, h]

/-- Mapping over a successful parse maps the value. -/
theorem pmap_some {α β : Type} (p : P α) (f : α → β) (s : List Char) (a : α)
    (r : List Char) (h : p s = some (a, r)) : pmap p f s = some (f a, r) := by
  simp [pmap, h]

/-- A pair fails when its first component fails. -/
theorem pairP_none_left {α β : Type} (p : P α) (q : P β) (s : List Char) (h : p s = none) :
    pairP p q s = none := by simp [pairP, h]

/-- A pair fails when its second component fails on the remainder. -/
theorem pairP_none_right {α β : Type} (p : P α) (q : P β) (s : List Char) (a : α)
    (r : List Char) (hp : p s = some (a, r)) (hq : q r = none) : pairP p q s = none := by
  simp [pairP, hp, hq]

/-- A pair of two successes pairs the values. -/
theorem pairP_both {α β : Type} (p : P α) (q : P β) (s : List Char) (a : α) (r : List Char)
    (b : β) (r2 : List Char) (hp : p s = some (a, r)) (hq : q r = some (b, r2)) :
    pairP p q s = some ((a, b), r2) := by simp [pairP, hp, hq]

/-- Sequencing: `precededP` keeps the second value of the pair. -/
theorem precededP_both {α β : Type} (p : P α) (q : P β) (s : List Char) (a : α)
    (r : List Char) (b : β) (r2 : List Char) (hp : p s = some (a, r))
    (hq : q r = some (b, r2)) : precededP p q s = some (b, r2) := by
  simp [precededP, pmap_some _ _ _ _ _ (pairP_both p q s a r b r2 hp hq)]

/-- Sequencing: `precededP` fails when its opener fails. -/
theorem precededP_none_left {α β : Type} (p : P α) (q : P β) (s : List Char)
    (h : p s = none) : precededP p q s = none := by
  simp [precededP, pmap_none _ _ _ (pairP_none_left p q s h)]

/-- Sequencing: `precededP` fails when its body fails. -/
theorem precededP_none_right {α β : Type} (p : P α) (q : P β) (s : List Char) (a : α)
    (r : List Char) (hp : p s = some (a, r)) (hq : q r = none) : precededP p q s = none := by
  simp [precededP, pmap_none _ _ _ (pairP_none_right p q s a r hp hq)]

/-- Delimiting: `delimitedP` fails when its opener fails. -/
theorem delimitedP_none_left {α β γ : Type} (p : P α) (q : P β) (r : P γ) (s : List Char)
    (h : p s = none) : delimitedP p q r s = none :=
  precededP_none_left _ _ _ h

/-- A failed option parse succeeds with `none` and no input consumed. -/
theorem optP_of_none {α : Type} (p : P α) (s : List Char) (h : p s = none) :
    optP p s = some (none, s) := by simp [optP, h]

/-- A successful option parse wraps the value. -/
theorem optP_of_some {α : Type} (p : P α) (s : List Char) (a : α) (r : List Char)
    (h : p s = some (a, r)) : optP p s = some (some a, r) := by simp [optP, h]

/-- Alternation: `altP` falls through to its second alternative on failure. -/
theorem altP_none_left {α : Type} (p q : P α) (s : List Char) (h : p s = none) :
    altP p q s = q s := by simp [altP, h]

/-- Alternation: `altP` commits to its first alternative on success. -/
theorem altP_of_some {α : Type} (p q : P α) (s : List Char) (x : α × List Char)
    (h : p s = some x) : altP p q s = some x := by simp [altP, h]

/-- A tag whose first character differs from the input head fails. -/
theorem tag_cons_ne (c : Char) (t : List Char) (c0 : Char) (s0 : List Char)
    (h : (c == c0) = false) : tag (c :: t) (c0 :: s0) = none := by
  simp only [tag, List.isPrefixOf, h, Bool.false_and, Bool.false_eq_true, if_false]

/-- A tag that fails the prefix test fails. -/
theorem tag_fails (t s : List Char) (h : t.isPrefixOf s = false) : tag t s = none := by
  simp [tag, h]

/-- A list is a boolean prefix of itself followed by anything. -/
theorem isPrefixOf_append (t s : List Char) : t.isPrefixOf (t ++ s) = true := by
  induction t with
  | nil => simp [List.isPrefixOf]
  | cons c t ih => simp [List.isPrefixOf, ih]

/-- A tag consumes exactly itself from the front of the input. -/
theorem tag_self_append (t s : List Char) : tag t (t ++ s) = some (t, s) := by
  simp [tag, isPrefixOf_append, List.drop_left]

/-- A matched cons tag exposes the input head. -/
theorem isPrefixOf_cons_inv (c : Char) (t s : List Char) (h : (c :: t).isPrefixOf s = true) :
    ∃ s2, s = c :: s2 ∧ t.isPrefixOf s2 = true := by
  cases s with
  | nil => exact absurd h (by simp [List.isPrefixOf])
  | cons c0 s0 =>
    simp only [List.isPrefixOf, Bool.and_eq_true, beq_iff_eq] at h
    exact ⟨s0, by rw [h.1], h.2⟩

/-- Consumption: `take_while1` consumes an entire input whose characters all satisfy the
predicate. -/
theorem take_while1_all (f : Char → Bool) (s : List Char) (hne : s ≠ [])
    (hall : ∀ c ∈ s, f c = true) : take_while1 f s = some (s, []) := by
  have ht : s.takeWhile f = s := List.takeWhile_eq_self_iff.mpr hall
  have hd : s.dropWhile f = [] := List.dropWhile_eq_nil_iff.mpr hall
  simp [take_while1, ht, hd, hne]

/-- Consumption: `take_while1` fails on an input whose head falsifies the predicate. -/
theorem take_while1_head_false (f : Char → Bool) (c : Char) (s : List Char)
    (h : f c = false) : take_while1 f (c :: s) = none := by
  simp [take_while1, List.takeWhile_cons, h]

/-- Consumption: `take_while1` fails on empty input. -/
theorem take_while1_nil (f : Char → Bool) : take_while1 f [] = none := rfl

/-- Consumption: `take_while1` succeeds on an input whose head satisfies the predicate,
with the usual `takeWhile`/`dropWhile` split. -/
theorem take_while1_head_true (f : Char → Bool) (c : Char) (s : List Char)
    (h : f c = true) :
    take_while1 f (c :: s) = some ((c :: s).takeWhile f, (c :: s).dropWhile f) := by
  simp [take_while1, List.takeWhile_cons, h]

/-- Two characters distinguished by a boolean predicate are `==`-distinct. -/
theorem beq_false_of_pred (g : Char → Bool) (c0 c : Char) (h0 : g c0 = true)
    (hc : g c = false) : (c == c0) = false := by
  cases hbe : c == c0 with
  | false => rfl
  | true =>
    have heq : c = c0 := eq_of_beq hbe
    rw [heq, h0] at hc
    exact Bool.noConfusion hc

/-- Splitting: `takeWhile` stops exactly at the first character falsifying the
predicate. -/
theorem takeWhile_append_boundary (f : Char → Bool) (d : List Char) (c : Char)
    (r : List Char) (hall : ∀ x ∈ d, f x = true) (hc : f c = false) :
    (d ++ c :: r).takeWhile f = d ∧ (d ++ c :: r).dropWhile f = c :: r := by
  induction d with
  | nil => simp [List.takeWhile_cons, List.dropWhile_cons, hc]
  | cons x d ih =>
    have hx : f x = true := hall x (by simp)
    have := ih (fun y hy => hall y (by simp [hy]))
    simp [List.takeWhile_cons, List.dropWhile_cons, hx, this]

/-- A `pmap` branch guarded by an opening tag fails when the tag fails. -/
theorem branch_none {α γ : Type} (t : List Char) (q : P α) (r : P γ) (g : α → Value)
    (s : List Char) (h : tag t s = none) : pmap (delimitedP (tag t) q r) g s = none :=
  pmap_none _ _ _ (delimitedP_none_left _ _ _ _ h)

/-- On an input whose head differs from all three structured openers the value
parser reduces to its boolean, number and constant alternatives. -/
theorem ttp_value_scalar (c : Char) (s0 : List Char)
    (h1 : (('{' : Char) == c) = false) (h2 : (('[' : Char) == c) = false)
    (h3 : (('"' : Char) == c) = false) :
    ttp_value (c :: s0) =
      altP (valueP (Value.Boolean true) (tag trueTok))
        (altP (valueP (Value.Boolean false) (tag falseTok))
          (altP (pmap float_str Value.Number)
            (pmap (take_while1 constChar) Value.Constant))) (c :: s0) := by
  show ttp_valueF ((c :: s0).length + 1) (c :: s0) = _
  simp only [ttp_valueF]
  rw [altP_none_left _ _ _ (branch_none _ _ _ _ _ (tag_cons_ne _ _ _ _ h1)),
    altP_none_left _ _ _ (branch_none _ _ _ _ _ (tag_cons_ne _ _ _ _ h2))]
  show altP (pmap (delimitedP (tag ['"']) (take_until ['"']) (tag ['"'])) Value.String) _ _ = _
  rw [altP_none_left _ _ _ (branch_none _ _ _ _ _ (tag_cons_ne _ _ _ _ h3))]

/-- Counterexample to C3 as stated: the bare all-alphanumeric token `true_`
does not parse as `Constant "true_"`; the boolean alternative matches the
prefix `true` and leaves `_` unconsumed. -/
theorem c3_whole_token_counterexample :
    ttp_value (("true_").toList) = some (Value.Boolean true, ['_']) ∧
      Value.Boolean true ≠ Value.Constant (("true_").toList) :=
  ⟨rfl, fun h => Value.noConfusion h⟩

/-- Failure of the fraction opener on empty input. -/
theorem tag_cons_nil (c : Char) (t : List Char) : tag (c :: t) [] = none := by
  simp [tag, List.isPrefixOf]

/-- Option parsing always succeeds with some outcome. -/
theorem optP_isSome {α : Type} (p : P α) (s : List Char) :
    ∃ o r, optP p s = some (o, r) := by
  cases h : p s with
  | none => exact ⟨none, s, optP_of_none _ _ h⟩
  | some ar =>
    obtain ⟨a, r⟩ := ar
    exact ⟨some a, r, optP_of_some _ _ a r h⟩

/-- When the input starts with a digit or a minus sign and `float_str`
succeeds, the value parser commits to the `Number` alternative with the same
result. -/
theorem ttp_value_of_float (c0 : Char) (s0 : List Char) (q : ℚ) (rem : List Char)
    (hd : c0.isDigit = true ∨ c0 = '-') (hf : float_str (c0 :: s0) = some (q, rem)) :
    ttp_value (c0 :: s0) = some (Value.Number q, rem) := by
  have knum : ∀ x : Char, x.isDigit = false → (('-' : Char) == x) = false →
      (x == c0) = false := by
    intro x hx hx2
    cases hd with
    | inl hdig => exact beq_false_of_pred Char.isDigit c0 x hdig hx
    | inr hm =>
      subst hm
      cases hbe : x == '-' with
      | false => rfl
      | true =>
        rw [eq_of_beq hbe] at hx2
        exact absurd hx2 (by decide)
  rw [ttp_value_scalar c0 s0 (knum '{' (by decide) (by decide))
    (knum '[' (by decide) (by decide)) (knum '"' (by decide) (by decide))]
  have htrue : tag trueTok (c0 :: s0) = none := by
    rw [show trueTok = 't' :: ['r', 'u', 'e'] from rfl]
    exact tag_cons_ne _ _ _ _ (knum 't' (by decide) (by decide))
  have hfalse : tag falseTok (c0 :: s0) = none := by
    rw [show falseTok = 'f' :: ['a', 'l', 's', 'e'] from rfl]
    exact tag_cons_ne _ _ _ _ (knum 'f' (by decide) (by decide))
  have hv1 : valueP (Value.Boolean true) (tag trueTok) (c0 :: s0) = none :=
    pmap_none _ _ _ htrue
  have hv2 : valueP (Value.Boolean false) (tag falseTok) (c0 :: s0) = none :=
    pmap_none _ _ _ hfalse
  rw [altP_none_left _ _ _ hv1, altP_none_left _ _ _ hv2]
  exact altP_of_some _ _ _ _ (pmap_some _ _ _ _ _ hf)

/-- C3 (amended).  Bare value tokens are matched by prefix, not as whole
tokens: a token of alphanumerics/underscores starting with `true` or `false`
parses as that boolean consuming only the keyword; one starting with a digit
parses as the number `float_str` extracts from its numeral prefix; only a
token starting with none of these parses as a `Constant` covering the whole
token.  Whole tokens that are exactly `true` or `false` and complete numerals
— optional minus, digits, optional dot-digits — are consumed entirely. -/
theorem c3_bare_token_parse :
    (∀ s : List Char, s ≠ [] → (∀ c ∈ s, constChar c = true) →
        (trueTok.isPrefixOf s = true → ttp_value s = some (Value.Boolean true, s.drop 4)) ∧
        (trueTok.isPrefixOf s = false → falseTok.isPrefixOf s = true →
          ttp_value s = some (Value.Boolean false, s.drop 5)) ∧
        (trueTok.isPrefixOf s = false → falseTok.isPrefixOf s = false →
          s.head?.any Char.isDigit = true →
          ∃ q rem, float_str s = some (q, rem) ∧ ttp_value s = some (Value.Number q, rem)) ∧
        (trueTok.isPrefixOf s = false → falseTok.isPrefixOf s = false →
          s.head?.any Char.isDigit = false →
          ttp_value s = some (Value.Constant s, []))) ∧
      (∀ (neg : Bool) (d1 : List Char), d1 ≠ [] → (∀ c ∈ d1, c.isDigit = true) →
        ∃ q, float_str ((cond neg ['-'] []) ++ d1) = some (q, []) ∧
          ttp_value ((cond neg ['-'] []) ++ d1) = some (Value.Number q, [])) ∧
      (∀ (neg : Bool) (d1 d2 : List Char), d1 ≠ [] → d2 ≠ [] →
        (∀ c ∈ d1, c.isDigit = true) → (∀ c ∈ d2, c.isDigit = true) →
        ∃ q, float_str ((cond neg ['-'] []) ++ d1 ++ '.' :: d2) = some (q, []) ∧
          ttp_value ((cond neg ['-'] []) ++ d1 ++ '.' :: d2)
            = some (Value.Number q, [])) := by
  refine ⟨?_, ?_, ?_⟩
  · intro s hne hcc
    obtain ⟨c0, s0, rfl⟩ : ∃ c0 s0, s = c0 :: s0 := by
      cases s with
      | nil => exact absurd rfl hne
      | cons a b => exact ⟨a, b, rfl⟩
    have hc0 : constChar c0 = true := hcc c0 (by simp)
    have hred := ttp_value_scalar c0 s0
      (beq_false_of_pred constChar c0 '{' hc0 (by decide))
      (beq_false_of_pred constChar c0 '[' hc0 (by decide))
      (beq_false_of_pred constChar c0 '"' hc0 (by decide))
    refine ⟨?_, ?_, ?_, ?_⟩
    · intro htr
      have ht0 : tag trueTok (c0 :: s0)
          = some (trueTok, (c0 :: s0).drop trueTok.length) := by simp [tag, htr]
      rw [hred]
      exact altP_of_some _ _ _ _ (pmap_some _ _ _ _ _ ht0)
    · intro htr hfa
      have hf0 : tag falseTok (c0 :: s0)
          = some (falseTok, (c0 :: s0).drop falseTok.length) := by simp [tag, hfa]
      have hv1 : valueP (Value.Boolean true) (tag trueTok) (c0 :: s0) = none :=
        pmap_none _ _ _ (tag_fails _ _ htr)
      rw [hred, altP_none_left _ _ _ hv1]
      exact altP_of_some _ _ _ _ (pmap_some _ _ _ _ _ hf0)
    · intro htr hfa hd
      have hd0 : c0.isDigit = true := by simpa using hd
      have hminus : optP (tag ['-']) (c0 :: s0) = some (none, c0 :: s0) :=
        optP_of_none _ _
          (tag_cons_ne _ _ _ _ (beq_false_of_pred Char.isDigit c0 '-' hd0 (by decide)))
      have htw := take_while1_head_true Char.isDigit c0 s0 hd0
      obtain ⟨fo, rem, ho⟩ := optP_isSome
        (precededP (tag ['.']) (take_while1 Char.isDigit))
        ((c0 :: s0).dropWhile Char.isDigit)
      have houter := pairP_both _ _ _ _ _ _ _ (pairP_both _ _ _ _ _ _ _ hminus htw) ho
      have hfl := pmap_some _ floatVal _ _ _ houter
      exact ⟨_, rem, hfl, ttp_value_of_float c0 s0 _ rem (Or.inl hd0) hfl⟩
    · intro htr hfa hd
      have hd0 : c0.isDigit = false := by simpa using hd
      have hminus : optP (tag ['-']) (c0 :: s0) = some (none, c0 :: s0) :=
        optP_of_none _ _
          (tag_cons_ne _ _ _ _ (beq_false_of_pred constChar c0 '-' hc0 (by decide)))
      have hflnone : float_str (c0 :: s0) = none :=
        pmap_none _ _ _ (pairP_none_left _ _ _ (pairP_none_right _ _ _ _ _ hminus
          (take_while1_head_false Char.isDigit c0 s0 hd0)))
      have hconst : take_while1 constChar (c0 :: s0) = some (c0 :: s0, []) :=
        take_while1_all _ _ (by simp) hcc
      have hv1 : valueP (Value.Boolean true) (tag trueTok) (c0 :: s0) = none :=
        pmap_none _ _ _ (tag_fails _ _ htr)
      have hv2 : valueP (Value.Boolean false) (tag falseTok) (c0 :: s0) = none :=
        pmap_none _ _ _ (tag_fails _ _ hfa)
      rw [hred, altP_none_left _ _ _ hv1, altP_none_left _ _ _ hv2,
        altP_none_left _ _ _ (pmap_none _ _ _ hflnone)]
      exact pmap_some _ _ _ _ _ hconst
  · intro neg d1 hne1 hall1
    obtain ⟨c1, d1x, rfl⟩ : ∃ c1 d1x, d1 = c1 :: d1x := by
      cases d1 with
      | nil => exact absurd rfl hne1
      | cons a b => exact ⟨a, b, rfl⟩
    have hc1 : c1.isDigit = true := hall1 c1 (by simp)
    have htw : take_while1 Char.isDigit (c1 :: d1x) = some (c1 :: d1x, []) :=
      take_while1_all _ _ (by simp) hall1
    have hfrac : optP (precededP (tag ['.']) (take_while1 Char.isDigit)) [] = some (none, []) :=
      optP_of_none _ _ (precededP_none_left _ _ _ (tag_cons_nil '.' []))
    cases neg with
    | false =>
      have hminus : optP (tag ['-']) (c1 :: d1x) = some (none, c1 :: d1x) :=
        optP_of_none _ _
          (tag_cons_ne _ _ _ _ (beq_false_of_pred Char.isDigit c1 '-' hc1 (by decide)))
      have houter := pairP_both _ _ _ _ _ _ _ (pairP_both _ _ _ _ _ _ _ hminus htw) hfrac
      have hfl := pmap_some _ floatVal _ _ _ houter
      exact ⟨_, hfl, ttp_value_of_float c1 d1x _ [] (Or.inl hc1) hfl⟩
    | true =>
      have hminus : optP (tag ['-']) ('-' :: c1 :: d1x) = some (some ['-'], c1 :: d1x) :=
        optP_of_some _ _ _ _ (tag_self_append ['-'] (c1 :: d1x))
      have houter := pairP_both _ _ _ _ _ _ _ (pairP_both _ _ _ _ _ _ _ hminus htw) hfrac
      have hfl := pmap_some _ floatVal _ _ _ houter
      exact ⟨_, hfl, ttp_value_of_float '-' (c1 :: d1x) _ [] (Or.inr rfl) hfl⟩
  · intro neg d1 d2 hne1 hne2 hall1 hall2
    obtain ⟨c1, d1x, rfl⟩ : ∃ c1 d1x, d1 = c1 :: d1x := by
      cases d1 with
      | nil => exact absurd rfl hne1
      | cons a b => exact ⟨a, b, rfl⟩
    have hc1 : c1.isDigit = true := hall1 c1 (by simp)
    have hb := takeWhile_append_boundary Char.isDigit (c1 :: d1x) '.' d2 hall1 (by decide)
    have htw : take_while1 Char.isDigit ((c1 :: d1x) ++ '.' :: d2)
        = some (c1 :: d1x, '.' :: d2) := by
      simp only [take_while1, hb.1, hb.2, List.isEmpty_cons, Bool.false_eq_true, if_false]
    have hfr2 : precededP (tag ['.']) (take_while1 Char.isDigit) ('.' :: d2)
        = some (d2, []) :=
      precededP_both _ _ _ _ _ _ _ (tag_self_append ['.'] d2)
        (take_while1_all _ _ hne2 hall2)
    have hfrac := optP_of_some _ _ _ _ hfr2
    cases neg with
    | false =>
      have hminus : optP (tag ['-']) ((c1 :: d1x) ++ '.' :: d2)
          = some (none, (c1 :: d1x) ++ '.' :: d2) :=
        optP_of_none _ _
          (tag_cons_ne _ _ _ _ (beq_false_of_pred Char.isDigit c1 '-' hc1 (by decide)))
      have houter := pairP_both _ _ _ _ _ _ _ (pairP_both _ _ _ _ _ _ _ hminus htw) hfrac
      have hfl := pmap_some _ floatVal _ _ _ houter
      exact ⟨_, hfl, ttp_value_of_float c1 (d1x ++ '.' :: d2) _ [] (Or.inl hc1) hfl⟩
    | true =>
      have hminus : optP (tag ['-']) ('-' :: ((c1 :: d1x) ++ '.' :: d2))
          = some (some ['-'], (c1 :: d1x) ++ '.' :: d2) :=
        optP_of_some _ _ _ _ (tag_self_append ['-'] ((c1 :: d1x) ++ '.' :: d2))
      have houter := pairP_both _ _ _ _ _ _ _ (pairP_both _ _ _ _ _ _ _ hminus htw) hfrac
      have hfl := pmap_some _ floatVal _ _ _ houter
      exact ⟨_, hfl, ttp_value_of_float '-' ((c1 :: d1x) ++ '.' :: d2) _ []
        (Or.inr rfl) hfl⟩

/-- Witness for C3 (amended): a bare constant token parses whole, and the
numeral `-15` parses entirely as a number. -/
theorem c3_bare_token_parse_witness :
    ttp_value (("LINK_1_GB").toList)
        = some (Value.Constant (("LINK_1_GB").toList), []) ∧
      ∃ q, float_str (("-15").toList) = some (q, []) ∧
        ttp_value (("-15").toList) = some (Value.Number q, []) :=
  ⟨(c3_bare_token_parse.1 (("LINK_1_GB").toList) (by decide) (by decide)).2.2.2
      (by decide) (by decide) (by decide),
    c3_bare_token_parse.2.1 true (("15").toList) (by decide) (by decide)⟩

/-! ## Error and OK response lemmas -/

/-- Searching: `splitUntil` on a single-character pattern that occurs in the input splits
at its first occurrence. -/
theorem splitUntil_single_of_mem (c : Char) (r : List Char) (h : c ∈ r) :
    splitUntil [c] r
      = some (r.takeWhile (fun x => x ≠ c), r.dropWhile (fun x => x ≠ c)) := by
  induction r with
  | nil => exact absurd h (by simp)
  | cons c0 r ih =>
    by_cases hc : c0 = c
    · subst hc
      simp [splitUntil, List.isPrefixOf, List.takeWhile_cons, List.dropWhile_cons]
    · have hmem : c ∈ r := by
        rcases List.mem_cons.mp h with h1 | h2
        · exact absurd h1.symm hc
        · exact h2
      have hbe : ((c == c0) : Bool) = false := beq_eq_false_iff_ne.mpr (fun he => hc he.symm)
      simp [splitUntil, List.isPrefixOf, hbe, ih hmem, List.takeWhile_cons,
        List.dropWhile_cons, hc]

/-- Searching: `splitUntil` fails when the single-character pattern is absent. -/
theorem splitUntil_single_of_not_mem (c : Char) (r : List Char) (h : c ∉ r) :
    splitUntil [c] r = none := by
  induction r with
  | nil => rfl
  | cons c0 r ih =>
    have hc : c0 ≠ c := fun he => h (by simp [he])
    have hbe : ((c == c0) : Bool) = false := beq_eq_false_iff_ne.mpr (fun he => hc he.symm)
    have hmem : c ∉ r := fun hm => h (by simp [hm])
    simp [splitUntil, List.isPrefixOf, hbe, ih hmem]

/-- The `alt` of `take_until` a character and `rest` always succeeds and
splits the input at the first occurrence of the character, or consumes it all
when the character is absent. -/
theorem until_or_rest (c : Char) (r : List Char) :
    altP (take_until [c]) restP r
      = some (r.takeWhile (fun x => x ≠ c), r.dropWhile (fun x => x ≠ c)) := by
  by_cases h : c ∈ r
  · have h0 : take_until [c] r
        = some (r.takeWhile (fun x => x ≠ c), r.dropWhile (fun x => x ≠ c)) :=
      splitUntil_single_of_mem c r h
    exact altP_of_some _ _ _ _ h0
  · have h0 : take_until [c] r = none := splitUntil_single_of_not_mem c r h
    rw [altP_none_left _ _ _ h0]
    have hall : ∀ x ∈ r, (decide (x ≠ c)) = true :=
      fun x hx => decide_eq_true (fun he => h (he ▸ hx))
    have h1 : r.takeWhile (fun x => x ≠ c) = r := List.takeWhile_eq_self_iff.mpr hall
    have h2 : r.dropWhile (fun x => x ≠ c) = [] := List.dropWhile_eq_nil_iff.mpr hall
    show some (r, []) = _
    rw [h1, h2]

/-- Counterexample to C6 as stated: after `-ERR` and the first space the text
is `" x"`, but the parser's greedy whitespace run eats both spaces and the
message comes back as `"x"` — not preserved verbatim from after that space. -/
theorem c6_multispace_counterexample :
    parse_ttp (("-ERR  x").toList) = some (Response.Err ⟨['x']⟩) ∧
      (['x'] : List Char) ≠ [' ', 'x'] :=
  ⟨rfl, by decide⟩

/-- C6 (amended).  For every input starting with `-ERR`: the parsed message
is the text after the maximal run of spaces and tabs following `-ERR`, up to
but excluding the first newline (or to the end of input when none); when
`-ERR` is not followed by a space or tab — in particular for the bare input
`-ERR` — the message is empty. -/
theorem c6_err_message (s : List Char) :
    parse_ttp (errTok ++ s)
      = some (Response.Err
          ⟨if s.head?.any isSpaceTab then
              (s.dropWhile isSpaceTab).takeWhile (fun x => x ≠ '\n')
            else []⟩) := by
  have hok0 : tag okTok (errTok ++ s) = none :=
    tag_cons_ne '+' ['O', 'K'] '-' ((("ERR").toList) ++ s) (by decide)
  have hoknone : ok_response (errTok ++ s) = none := by
    simp only [ok_response]
    rw [precededP_none_left _ _ _ hok0]
  have htag : tag errTok (errTok ++ s) = some (errTok, s) := tag_self_append _ _
  have herr : err_response (errTok ++ s)
      = some (⟨if s.head?.any isSpaceTab then
            (s.dropWhile isSpaceTab).takeWhile (fun x => x ≠ '\n')
          else []⟩, if s.head?.any isSpaceTab then
            (s.dropWhile isSpaceTab).dropWhile (fun x => x ≠ '\n')
          else s) := by
    cases s with
    | nil =>
      have hbody : precededP space1 (altP (take_until ['\n']) restP) [] = none :=
        precededP_none_left _ _ _ (take_while1_nil isSpaceTab)
      have hpre := precededP_both _ _ _ _ _ _ _ htag (optP_of_none _ _ hbody)
      simp only [err_response]
      rw [hpre]
      simp
    | cons c s2 =>
      by_cases hsp : isSpaceTab c = true
      · have hs1 : space1 (c :: s2)
            = some ((c :: s2).takeWhile isSpaceTab, (c :: s2).dropWhile isSpaceTab) :=
          take_while1_head_true isSpaceTab c s2 hsp
        have huntil := until_or_rest '\n' ((c :: s2).dropWhile isSpaceTab)
        have hbody : precededP space1 (altP (take_until ['\n']) restP) (c :: s2)
            = some (((c :: s2).dropWhile isSpaceTab).takeWhile (fun x => x ≠ '\n'),
                ((c :: s2).dropWhile isSpaceTab).dropWhile (fun x => x ≠ '\n')) :=
          precededP_both _ _ _ _ _ _ _ hs1 huntil
        have hpre : precededP (tag errTok)
              (optP (precededP space1 (altP (take_until ['\n']) restP)))
              (errTok ++ (c :: s2))
            = some (some (((c :: s2).dropWhile isSpaceTab).takeWhile (fun x => x ≠ '\n')),
                ((c :: s2).dropWhile isSpaceTab).dropWhile (fun x => x ≠ '\n')) :=
          precededP_both _ _ _ _ _ _ _ htag (optP_of_some _ _ _ _ hbody)
        simp only [err_response]
        rw [hpre]
        simp [hsp]
      · have hsp2 : isSpaceTab c = false := by
          cases h2 : isSpaceTab c with
          | false => rfl
          | true => exact absurd h2 hsp
        have hbody : precededP space1 (altP (take_until ['\n']) restP) (c :: s2) = none :=
          precededP_none_left _ _ _ (take_while1_head_false isSpaceTab c s2 hsp2)
        have hpre := precededP_both _ _ _ _ _ _ _ htag (optP_of_none _ _ hbody)
        simp only [err_response]
        rw [hpre]
        simp [hsp2]
  have hresp : parse_response (errTok ++ s)
      = some (Response.Err ⟨if s.head?.any isSpaceTab then
            (s.dropWhile isSpaceTab).takeWhile (fun x => x ≠ '\n')
          else []⟩, if s.head?.any isSpaceTab then
            (s.dropWhile isSpaceTab).dropWhile (fun x => x ≠ '\n')
          else s) := by
    simp only [parse_response]
    rw [altP_none_left _ _ _ (pmap_none _ _ _ hoknone)]
    exact altP_of_some _ _ _ _ (pmap_some _ _ _ _ _ herr)
  simp [parse_ttp, hresp]

/-- C9.  Every input beginning with `+OK` parses to a successful `Ok`
response — never a parse error: the optional payload parser backtracks on any
malformed payload, falling back to the bare `OkResponse::Ok`, and whatever
trails a recognised payload is silently dropped by `parse_ttp`. -/
theorem c9_ok_never_parse_error :
    (∀ s : List Char, ∃ r, parse_ttp (okTok ++ s) = some (Response.Ok r)) ∧
      parse_ttp (("+OK \"value\":").toList) = some (Response.Ok OkResponse.Ok) ∧
      parse_ttp (("+OK nonsense").toList) = some (Response.Ok OkResponse.Ok) ∧
      parse_ttp (("+OK \"value\":true trailing garbage").toList)
        = some (Response.Ok (OkResponse.WithValue (Value.Boolean true))) := by
  refine ⟨?_, rfl, rfl, rfl⟩
  intro s
  have htag : tag okTok (okTok ++ s) = some (okTok, s) := tag_self_append _ _
  obtain ⟨o, rem, hop⟩ := optP_isSome
    (altP
      (pmap (precededP (precededP space1 (field (("value").toList))) ttp_value)
        OkResponse.WithValue)
      (pmap (precededP (precededP space1 (field (("list").toList))) ttp_list_of_values)
        OkResponse.WithList)) s
  have hpre := precededP_both _ _ _ _ _ _ _ htag hop
  have hok : ok_response (okTok ++ s) = some (o.getD OkResponse.Ok, rem) := by
    simp only [ok_response]
    rw [hpre]
  have hresp : parse_response (okTok ++ s)
      = some (Response.Ok (o.getD OkResponse.Ok), rem) :=
    altP_of_some _ _ _ _ (pmap_some _ _ _ _ _ hok)
  exact ⟨o.getD OkResponse.Ok, by simp [parse_ttp, hresp]⟩

/-- C4 is a code bug, witnessed here: on `-0.5` the parser returns `+0.5`
because the fractional part is negated only when the integer part is strictly
negative, which fails when the integer part is `0`; on `-3.5`, whose integer
part is nonzero, the sign is applied to the fraction as intended. -/
theorem c4_negative_fraction_bug :
    float_str (("-0.5").toList) = some (1 / 2, []) ∧ (0 : ℚ) < 1 / 2 ∧
      float_str (("-3.5").toList) = some (-7 / 2, []) := by
  refine ⟨?_, by norm_num, ?_⟩
  · have hinner : (pairP (pairP (optP (tag ['-'])) (take_while1 Char.isDigit))
        (optP (precededP (tag ['.']) (take_while1 Char.isDigit)))) (("-0.5").toList)
        = some (((some ['-'], ['0']), some ['5']), []) := by decide
    have h2 : float_str (("-0.5").toList)
        = some (floatVal ((some ['-'], ['0']), some ['5']), []) :=
      pmap_some _ floatVal _ _ _ hinner
    rw [h2]
    have e3 : (((['5'].reverse).dropWhile (fun c => c = '0')).reverse) = ['5'] := by decide
    have e1 : digitsToNat ['0'] = 0 := by decide
    have e2 : digitsToNat ['5'] = 5 := by decide
    simp only [floatVal, e3, e1, e2]
    norm_num
  · have hinner : (pairP (pairP (optP (tag ['-'])) (take_while1 Char.isDigit))
        (optP (precededP (tag ['.']) (take_while1 Char.isDigit)))) (("-3.5").toList)
        = some (((some ['-'], ['3']), some ['5']), []) := by decide
    have h2 : float_str (("-3.5").toList)
        = some (floatVal ((some ['-'], ['3']), some ['5']), []) :=
      pmap_some _ floatVal _ _ _ hinner
    rw [h2]
    have e3 : (((['5'].reverse).dropWhile (fun c => c = '0')).reverse) = ['5'] := by decide
    have e1 : digitsToNat ['3'] = 3 := by decide
    have e2 : digitsToNat ['5'] = 5 := by decide
    simp only [floatVal, e3, e1, e2]
    norm_num

end Tesira
